import Mathlib

/-!
Verification of the lazuli scraper pipeline (Go) against its specification.

The development shallowly embeds the pipeline code:
* Go strings are modelled as `List Char` (`GoStr`);
* `strings.Split` / `strings.Trim` / `strings.Contains` / `strings.Join` /
  `strings.HasPrefix` are modelled character-exactly on `GoStr`;
* the chromedp browser session is modelled as an oracle assigning each of the
  ordered browser actions of `scrapeProductPage` an outcome (a value, or an
  error), with `chromedp.Run` short-circuiting at the first failing action;
* the worker pool is modelled by the per-worker job list a nondeterministic
  scheduler hands each worker (any partition of the enqueued jobs), and the
  channel-ordering discipline of `Start` is modelled as a small labelled
  transition system over wait-group/close events.
-/

/-- Go strings, modelled as lists of characters. -/
abbrev GoStr := List Char

/-- Model of Go `strings.Split(s, sep)` for a one-character separator:
splits around each occurrence of `sep`; the split of the empty string is
`[""]`, exactly as in Go. -/
def goSplit (sep : Char) : GoStr → List GoStr
  | [] => [[]]
  | c :: cs =>
    match goSplit sep cs with
    | [] => [[]]
    | s :: rest => if c = sep then [] :: s :: rest else (c :: s) :: rest

/-- Drops the leading run of the character `sep`; used to model both sides of
Go `strings.Trim(s, cutset)` for the one-character cutset. -/
def dropLeading (sep : Char) : GoStr → GoStr
  | [] => []
  | c :: cs => if c = sep then dropLeading sep cs else c :: cs

/-- Model of Go `strings.Trim(s, cutset)` for a one-character cutset: removes
the leading and trailing runs of that character. -/
def goTrim (sep : Char) (s : GoStr) : GoStr :=
  (dropLeading sep (dropLeading sep s).reverse).reverse

/-- Embeds the identifier derivation of `scrapeProductPage`
(`src/unnamed/part_000` lines 197-200):
`urlParts := strings.Split(strings.Trim(url, "/"), "/")`, and if the slice is
nonempty, `ProductID = urlParts[len(urlParts)-1]` (otherwise the field keeps
its zero value, the empty string). -/
def deriveProductID (url : GoStr) : GoStr :=
  match (goSplit '/' (goTrim '/' url)).getLast? with
  | some s => s
  | none => []

/-- Modelled from the spec: the specified identifier, namely the last
non-empty `/`-separated segment of the string (`none` when every segment is
empty).  Compared against `deriveProductID`, which is translated from the
source. -/
def lastNonEmptySegment (s : GoStr) : Option GoStr :=
  ((goSplit '/' s).filter (fun t => t ≠ [])).getLast?

theorem goSplit_ne_nil (sep : Char) (s : GoStr) : goSplit sep s ≠ [] := by
  cases s with
  | nil => simp [goSplit]
  | cons c cs =>
    simp only [goSplit]
    rcases h : goSplit sep cs with _ | ⟨t, rest⟩
    · simp
    · by_cases hc : c = sep <;> simp [hc]

theorem goSplit_cons_sep (sep : Char) (s : GoStr) :
    goSplit sep (sep :: s) = [] :: goSplit sep s := by
  simp only [goSplit]
  rcases h : goSplit sep s with _ | ⟨t, rest⟩
  · exact absurd h (goSplit_ne_nil sep s)
  · simp

theorem goSplit_cons_ne (sep c : Char) (s : GoStr) (hc : c ≠ sep)
    {t : GoStr} {rest : List GoStr} (h : goSplit sep s = t :: rest) :
    goSplit sep (c :: s) = (c :: t) :: rest := by
  simp only [goSplit, h]
  simp [hc]

theorem goSplit_append_sep (sep : Char) (s : GoStr) :
    goSplit sep (s ++ [sep]) = goSplit sep s ++ [[]] := by
  induction s with
  | nil => simp [goSplit]
  | cons c cs ih =>
    by_cases hc : c = sep
    · subst hc
      rw [List.cons_append, goSplit_cons_sep, goSplit_cons_sep, ih]
      simp
    · rcases h : goSplit sep cs with _ | ⟨t, rest⟩
      · exact absurd h (goSplit_ne_nil sep cs)
      · have h2 : goSplit sep (cs ++ [sep]) = t :: (rest ++ [[]]) := by
          rw [ih, h]; simp
        rw [List.cons_append, goSplit_cons_ne sep c _ hc h2,
          goSplit_cons_ne sep c _ hc h]
        simp

theorem goSplit_append_cons_sep (sep : Char) (xs ys : GoStr) :
    goSplit sep (xs ++ sep :: ys) = goSplit sep xs ++ goSplit sep ys := by
  induction xs with
  | nil => rw [List.nil_append, goSplit_cons_sep]; simp [goSplit]
  | cons c cs ih =>
    by_cases hc : c = sep
    · subst hc
      rw [List.cons_append, goSplit_cons_sep, goSplit_cons_sep, ih]
      simp
    · rcases h : goSplit sep cs with _ | ⟨t, rest⟩
      · exact absurd h (goSplit_ne_nil sep cs)
      · have h2 : goSplit sep (cs ++ sep :: ys) = t :: (rest ++ goSplit sep ys) := by
          rw [ih, h]; simp
        rw [List.cons_append, goSplit_cons_ne sep c _ hc h2,
          goSplit_cons_ne sep c _ hc h]
        simp

theorem dropLeading_cons_sep (sep : Char) (s : GoStr) :
    dropLeading sep (sep :: s) = dropLeading sep s := by
  simp [dropLeading]

theorem dropLeading_cons_ne (sep c : Char) (s : GoStr) (hc : c ≠ sep) :
    dropLeading sep (c :: s) = c :: s := by
  simp [dropLeading, hc]

theorem dropLeading_eq_self (sep : Char) (s : GoStr) (h : s.head? ≠ some sep) :
    dropLeading sep s = s := by
  cases s with
  | nil => rfl
  | cons c cs =>
    have hc : c ≠ sep := by
      intro hcc
      exact h (by simp [hcc])
    exact dropLeading_cons_ne sep c cs hc

theorem goTrim_cons_sep (sep : Char) (s : GoStr) :
    goTrim sep (sep :: s) = goTrim sep s := by
  unfold goTrim
  rw [dropLeading_cons_sep]

theorem goTrim_append_sep (sep : Char) (s : GoStr) :
    goTrim sep (s ++ [sep]) = goTrim sep s := by
  induction s with
  | nil => simp [goTrim, dropLeading]
  | cons c cs ih =>
    by_cases hc : c = sep
    · subst hc
      rw [List.cons_append, goTrim_cons_sep, goTrim_cons_sep, ih]
    · unfold goTrim
      rw [List.cons_append, dropLeading_cons_ne sep c _ hc,
        dropLeading_cons_ne sep c cs hc]
      have hrev : (c :: (cs ++ [sep])).reverse = sep :: (cs.reverse ++ [c]) := by
        simp
      have hrev2 : (c :: cs).reverse = cs.reverse ++ [c] := by simp
      rw [hrev, hrev2, dropLeading_cons_sep]

theorem goTrim_eq_self (sep : Char) (s : GoStr) (hh : s.head? ≠ some sep)
    (hl : s.getLast? ≠ some sep) : goTrim sep s = s := by
  unfold goTrim
  rw [dropLeading_eq_self sep s hh]
  rw [dropLeading_eq_self sep s.reverse (by rwa [List.head?_reverse])]
  exact List.reverse_reverse s

theorem goSplit_getLast_chunk (sep : Char) (s : GoStr) (hne : s ≠ [])
    (hl : s.getLast? ≠ some sep) :
    ∃ ys t, goSplit sep s = ys ++ [t] ∧ t ≠ [] := by
  induction s with
  | nil => exact absurd rfl hne
  | cons c cs ih =>
    cases cs with
    | nil =>
      have hc : c ≠ sep := by
        intro hcc
        exact hl (by simp [hcc, List.getLast?])
      refine ⟨[], [c], ?_, by simp⟩
      rw [goSplit_cons_ne sep c [] hc (show goSplit sep [] = [] :: [] from rfl)]
      simp
    | cons c2 cs2 =>
      have hl2 : (c2 :: cs2).getLast? ≠ some sep := by
        rwa [List.getLast?_cons_cons] at hl
      obtain ⟨ys, t, hsplit, ht⟩ := ih (by simp) hl2
      by_cases hc : c = sep
      · subst hc
        refine ⟨[] :: ys, t, ?_, ht⟩
        rw [goSplit_cons_sep, hsplit]
        simp
      · rcases ys with _ | ⟨y, ys2⟩
        · refine ⟨[], c :: t, ?_, by simp⟩
          rw [goSplit_cons_ne sep c _ hc (by simpa using hsplit)]
          simp
        · refine ⟨(c :: y) :: ys2, t, ?_, ht⟩
          rw [goSplit_cons_ne sep c _ hc (by simpa using hsplit)]
          simp

theorem deriveProductID_cons_sep (s : GoStr) :
    deriveProductID ('/' :: s) = deriveProductID s := by
  unfold deriveProductID
  rw [goTrim_cons_sep]

theorem deriveProductID_append_sep (s : GoStr) :
    deriveProductID (s ++ ['/']) = deriveProductID s := by
  unfold deriveProductID
  rw [goTrim_append_sep]

theorem lastNonEmptySegment_cons_sep (s : GoStr) :
    lastNonEmptySegment ('/' :: s) = lastNonEmptySegment s := by
  unfold lastNonEmptySegment
  rw [goSplit_cons_sep]
  simp

theorem lastNonEmptySegment_append_sep (s : GoStr) :
    lastNonEmptySegment (s ++ ['/']) = lastNonEmptySegment s := by
  unfold lastNonEmptySegment
  rw [goSplit_append_sep]
  simp

theorem goSplit_filter_ne_nil (sep : Char) (s : GoStr) (h : ∃ c ∈ s, c ≠ sep) :
    (goSplit sep s).filter (fun t => t ≠ []) ≠ [] := by
  induction s with
  | nil => obtain ⟨c, hc, _⟩ := h; simp at hc
  | cons c cs ih =>
    by_cases hc : c = sep
    · rw [hc, goSplit_cons_sep]
      have h2 : ∃ d ∈ cs, d ≠ sep := by
        obtain ⟨d, hd, hdn⟩ := h
        rcases List.mem_cons.mp hd with rfl | hd2
        · exact absurd hc hdn
        · exact ⟨d, hd2, hdn⟩
      simpa using ih h2
    · rcases hsp : goSplit sep cs with _ | ⟨t, rest⟩
      · exact absurd hsp (goSplit_ne_nil sep cs)
      · rw [goSplit_cons_ne sep c cs hc hsp]
        simp

theorem deriveProductID_eq_lastNonEmptySegment :
    ∀ n (s : GoStr), s.length ≤ n → (∃ c ∈ s, c ≠ '/') →
      ∃ seg, lastNonEmptySegment s = some seg ∧ deriveProductID s = seg := by
  intro n
  induction n with
  | zero =>
    intro s hlen h
    obtain ⟨c, hc, _⟩ := h
    rw [Nat.le_zero, List.length_eq_zero] at hlen
    subst hlen
    simp at hc
  | succ n ih =>
    intro s hlen h
    cases s with
    | nil => obtain ⟨c, hc, _⟩ := h; simp at hc
    | cons a s2 =>
      by_cases ha : a = '/'
      · subst ha
        have h2 : ∃ c ∈ s2, c ≠ '/' := by
          obtain ⟨c, hc, hcn⟩ := h
          rcases List.mem_cons.mp hc with rfl | hc2
          · exact absurd rfl hcn
          · exact ⟨c, hc2, hcn⟩
        obtain ⟨seg, h1, h2d⟩ := ih s2 (Nat.le_of_succ_le_succ (by simpa using hlen)) h2
        exact ⟨seg, by rw [lastNonEmptySegment_cons_sep, h1],
          by rw [deriveProductID_cons_sep, h2d]⟩
      · by_cases hl : (a :: s2).getLast? = some '/'
        · have hne : a :: s2 ≠ [] := by simp
          have hgl : (a :: s2).getLast hne = '/' := by
            have := List.getLast?_eq_getLast (a :: s2) hne
            rw [hl] at this
            exact (Option.some.injEq _ _).mp this.symm
          have hsplit : (a :: s2).dropLast ++ ['/'] = a :: s2 := by
            conv_rhs => rw [← List.dropLast_append_getLast hne]
            rw [hgl]
          have hs2ne : s2 ≠ [] := by
            intro hs2
            subst hs2
            simp [List.getLast?] at hl
            exact ha hl
          have hmem : a ∈ (a :: s2).dropLast := by
            cases s2 with
            | nil => exact absurd rfl hs2ne
            | cons b t => simp [List.dropLast]
          have hlen2 : (a :: s2).dropLast.length ≤ n := by
            rw [List.length_dropLast]
            simpa using Nat.le_of_succ_le_succ (by simpa using hlen)
          obtain ⟨seg, h1, h2d⟩ := ih (a :: s2).dropLast hlen2 ⟨a, hmem, ha⟩
          refine ⟨seg, ?_, ?_⟩
          · rw [← hsplit, lastNonEmptySegment_append_sep, h1]
          · rw [← hsplit, deriveProductID_append_sep, h2d]
        · have hh : (a :: s2).head? ≠ some '/' := by simp [ha]
          obtain ⟨ys, t, hchunk, ht⟩ :=
            goSplit_getLast_chunk '/' (a :: s2) (by simp) hl
          refine ⟨t, ?_, ?_⟩
          · unfold lastNonEmptySegment
            rw [hchunk, List.filter_append]
            have hft : List.filter (fun t => decide (t ≠ [])) [t] = [t] := by
              simp [ht]
            rw [hft]
            exact List.getLast?_concat _
          · unfold deriveProductID
            rw [goTrim_eq_self '/' _ hh hl, hchunk, List.getLast?_concat]

/-- C2: for every syntactically valid product URL, written as an arbitrary
prefix (scheme and host) followed by a path `'/' :: rest` that contains at
least one non-slash character, the product identifier derived by
`scrapeProductPage` equals the last non-empty segment of the path, and it is
unchanged by a trailing slash.  The derivation `deriveProductID` is a total
function of the URL alone, so it succeeds independently of every rendering
and extraction step. -/
theorem productID_eq_last_nonempty_path_segment (base rest : GoStr)
    (h : ∃ c ∈ rest, c ≠ '/') :
    (∃ seg, lastNonEmptySegment ('/' :: rest) = some seg ∧
      deriveProductID (base ++ '/' :: rest) = seg) ∧
    deriveProductID ((base ++ '/' :: rest) ++ ['/']) =
      deriveProductID (base ++ '/' :: rest) := by
  constructor
  · have hfull : ∃ c ∈ base ++ '/' :: rest, c ≠ '/' := by
      obtain ⟨c, hc, hcn⟩ := h
      exact ⟨c, by simp [hc], hcn⟩
    obtain ⟨seg, h1, h2⟩ :=
      deriveProductID_eq_lastNonEmptySegment (base ++ '/' :: rest).length
        (base ++ '/' :: rest) le_rfl hfull
    have key : lastNonEmptySegment (base ++ '/' :: rest) =
        lastNonEmptySegment ('/' :: rest) := by
      unfold lastNonEmptySegment
      rw [goSplit_append_cons_sep, goSplit_cons_sep, List.filter_append,
        List.getLast?_append_of_ne_nil _ (goSplit_filter_ne_nil '/' rest h)]
      simp
    exact ⟨seg, by rw [← key, h1], h2⟩
  · exact deriveProductID_append_sep (base ++ '/' :: rest)

/-- A concrete product URL for the C2 witness, split into the host part and
the final path. -/
def demoURLBase : GoStr := "https://site/x/y".data

/-- The path remainder of the concrete C2 witness URL. -/
def demoURLRest : GoStr := "12345".data

/-- Witness for C2 at the URL `https://site/x/y/12345`: the hypothesis holds
and the derived identifier is the last non-empty path segment, also with a
trailing slash. -/
theorem productID_eq_last_nonempty_path_segment_witness :
    (∃ c ∈ demoURLRest, c ≠ '/') ∧
    ((∃ seg, lastNonEmptySegment ('/' :: demoURLRest) = some seg ∧
      deriveProductID (demoURLBase ++ '/' :: demoURLRest) = seg) ∧
    deriveProductID ((demoURLBase ++ '/' :: demoURLRest) ++ ['/']) =
      deriveProductID (demoURLBase ++ '/' :: demoURLRest)) :=
  ⟨by decide, productID_eq_last_nonempty_path_segment demoURLBase demoURLRest
    (by decide)⟩

/-- Embeds the deduplication loop of `discoverProductLinks`
(`src/unnamed/part_000` lines 179-186): a `uniqueLinks` set of already-seen
URLs (the Go map, modelled as the list of its keys) and a result list built
by appending each not-yet-seen link. -/
def dedupFirstSeen (uniqueLinks : List GoStr) : List GoStr → List GoStr
  | [] => []
  | link :: rest =>
    if link ∈ uniqueLinks then dedupFirstSeen uniqueLinks rest
    else link :: dedupFirstSeen (link :: uniqueLinks) rest

/-- Embeds `discoverProductLinks` (`src/unnamed/part_000` lines 151-188):
the browser part (navigation, scrolling, anchor extraction in one pass) is
external and yields the raw anchor list `links`; the function returns that
list deduplicated in first-seen order. -/
def discoverProductLinks (links : List GoStr) : List GoStr :=
  dedupFirstSeen [] links

theorem mem_dedupFirstSeen (u : GoStr) (ls : List GoStr) :
    ∀ seen, u ∈ dedupFirstSeen seen ls ↔ u ∈ ls ∧ u ∉ seen := by
  induction ls with
  | nil => intro seen; simp [dedupFirstSeen]
  | cons l rest ih =>
    intro seen
    by_cases hl : l ∈ seen
    · rw [dedupFirstSeen, if_pos hl, ih seen]
      constructor
      · rintro ⟨h1, h2⟩
        exact ⟨List.mem_cons_of_mem l h1, h2⟩
      · rintro ⟨h1, h2⟩
        rcases List.mem_cons.mp h1 with rfl | h3
        · exact absurd hl h2
        · exact ⟨h3, h2⟩
    · rw [dedupFirstSeen, if_neg hl]
      simp only [List.mem_cons, ih (l :: seen)]
      constructor
      · rintro (rfl | ⟨h1, h2⟩)
        · exact ⟨Or.inl rfl, hl⟩
        · exact ⟨Or.inr h1, fun hu => h2 (Or.inr hu)⟩
      · rintro ⟨rfl | h1, h2⟩
        · exact Or.inl rfl
        · by_cases hu : u = l
          · exact Or.inl hu
          · exact Or.inr ⟨h1, fun hs => Or.elim hs hu h2⟩

theorem dedupFirstSeen_nodup (ls : List GoStr) :
    ∀ seen, (dedupFirstSeen seen ls).Nodup := by
  induction ls with
  | nil => intro seen; simp [dedupFirstSeen]
  | cons l rest ih =>
    intro seen
    by_cases hl : l ∈ seen
    · rw [dedupFirstSeen, if_pos hl]
      exact ih seen
    · rw [dedupFirstSeen, if_neg hl]
      refine List.Nodup.cons ?_ (ih (l :: seen))
      intro hmem
      exact ((mem_dedupFirstSeen l rest (l :: seen)).mp hmem).2 (List.mem_cons_self l seen)

/-- The index of the first occurrence of `u` in a list of URLs (length of the
list when `u` does not occur). -/
def firstIdx (u : GoStr) : List GoStr → Nat
  | [] => 0
  | v :: rest => if v = u then 0 else firstIdx u rest + 1

theorem firstIdx_cons_self (u : GoStr) (rest : List GoStr) :
    firstIdx u (u :: rest) = 0 := by
  simp [firstIdx]

theorem firstIdx_cons_ne (u v : GoStr) (rest : List GoStr) (h : v ≠ u) :
    firstIdx u (v :: rest) = firstIdx u rest + 1 := by
  simp [firstIdx, h]

theorem dedupFirstSeen_pairwise_firstIdx (ls : List GoStr) :
    ∀ seen, (dedupFirstSeen seen ls).Pairwise
      (fun u v => firstIdx u ls < firstIdx v ls) := by
  induction ls with
  | nil => intro seen; simp [dedupFirstSeen]
  | cons l rest ih =>
    intro seen
    by_cases hl : l ∈ seen
    · rw [dedupFirstSeen, if_pos hl]
      refine (ih seen).imp_of_mem ?_
      intro u v hu hv huv
      have hune : l ≠ u := fun he =>
        ((mem_dedupFirstSeen u rest seen).mp hu).2 (he ▸ hl)
      have hvne : l ≠ v := fun he =>
        ((mem_dedupFirstSeen v rest seen).mp hv).2 (he ▸ hl)
      rw [firstIdx_cons_ne u l rest hune, firstIdx_cons_ne v l rest hvne]
      exact Nat.succ_lt_succ huv
    · rw [dedupFirstSeen, if_neg hl]
      refine List.Pairwise.cons ?_ ?_
      · intro v hv
        have hvne : l ≠ v := fun he =>
          ((mem_dedupFirstSeen v rest (l :: seen)).mp hv).2
            (he ▸ List.mem_cons_self l seen)
        rw [firstIdx_cons_self, firstIdx_cons_ne v l rest hvne]
        exact Nat.succ_pos _
      · refine (ih (l :: seen)).imp_of_mem ?_
        intro u v hu hv huv
        have hune : l ≠ u := fun he =>
          ((mem_dedupFirstSeen u rest (l :: seen)).mp hu).2
            (he ▸ List.mem_cons_self l seen)
        have hvne : l ≠ v := fun he =>
          ((mem_dedupFirstSeen v rest (l :: seen)).mp hv).2
            (he ▸ List.mem_cons_self l seen)
        rw [firstIdx_cons_ne u l rest hune, firstIdx_cons_ne v l rest hvne]
        exact Nat.succ_lt_succ huv

/-- C3: link discovery returns each distinct anchor URL exactly once, in the
order of its first occurrence in the raw anchor list: the result has no
duplicates, contains exactly the URLs of the raw list, is strictly sorted by
index of first occurrence, and its length is the number K of distinct URLs. -/
theorem discoverProductLinks_unique_first_seen (links : List GoStr) :
    (discoverProductLinks links).Nodup ∧
    (∀ u, u ∈ discoverProductLinks links ↔ u ∈ links) ∧
    (discoverProductLinks links).Pairwise
      (fun u v => firstIdx u links < firstIdx v links) ∧
    (discoverProductLinks links).length = links.toFinset.card := by
  have hnd := dedupFirstSeen_nodup links []
  have hmem : ∀ u, u ∈ discoverProductLinks links ↔ u ∈ links := by
    intro u
    rw [discoverProductLinks, mem_dedupFirstSeen]
    simp
  refine ⟨hnd, hmem, dedupFirstSeen_pairwise_firstIdx links [], ?_⟩
  have hfin : (discoverProductLinks links).toFinset = links.toFinset := by
    ext u
    simp only [List.mem_toFinset]
    exact hmem u
  rw [← hfin]
  exact (List.toFinset_card_of_nodup hnd).symm

/-- The `Product` record of the chromedp scraper
(`src/unnamed/part_000` lines 51-70). -/
structure Product where
  URL : GoStr
  Name : GoStr
  ProductID : GoStr
  Price : GoStr
  ImageURL : GoStr
  Breadcrumb : GoStr
  DescriptionGeneral : GoStr
  DescriptionTitle : GoStr
  DescriptionItemized : GoStr
  AvailableSizes : GoStr
  SenseOfSize : GoStr
  Keywords : GoStr
  SizeChartJSON : GoStr
  ReviewsJSON : GoStr
  OverallRating : GoStr
  NumberOfReviews : GoStr
  RecommendedRate : GoStr
  CoordinatedProductsJSON : GoStr
  deriving DecidableEq

/-- The zero value `Product{}` of Go: every field is the empty string. -/
def emptyProduct : Product :=
  ⟨[], [], [], [], [], [], [], [], [], [], [], [], [], [], [], [], [], []⟩

/-- A chromedp session outcome oracle: maps the index of an action in the
fixed ordered action list of `scrapeProductPage` to its outcome — `none` for
a failure, `some v` for success with extracted text `v` (ignored for actions
that extract nothing, such as Navigate, WaitReady, Click and WaitVisible). -/
def BrowserEnv := Nat → Option GoStr

/-- Model of `chromedp.Run` on an ordered action list: executes the `n`
actions starting at index `i` in order, short-circuiting at the first
failing action and reporting its index. -/
def runBrowserActions (env : BrowserEnv) : Nat → Nat → Except Nat Unit
  | _, 0 => .ok ()
  | i, n + 1 =>
    match env i with
    | none => .error i
    | some _ => runBrowserActions env (i + 1) n

/-- The number of chromedp actions in `scrapeProductPage`
(`src/unnamed/part_000` lines 210-237): Navigate, WaitReady, ten Text reads,
one AttributeValue, four Evaluates, Click, WaitVisible and the size-chart
Evaluate. -/
def numScrapeActions : Nat := 20

/-- The value extracted by action `i` (the empty string when unavailable,
matching the Go zero value the target variable keeps). -/
def envVal (env : BrowserEnv) (i : Nat) : GoStr := (env i).getD []

/-- Error of one scrape job: `chromedp.Run` failed at the action with the
given index (Go wraps it as `browser actions failed: ...`). -/
inductive ScrapeError where
  | browserActionsFailed (i : Nat)
  deriving DecidableEq

/-- Embeds `scrapeProductPage` (`src/unnamed/part_000` lines 191-248).
`URL` and `ProductID` are computed from the url before any browser action
runs; the 20 actions then run in source order under `chromedp.Run`; on any
action failure the function returns the zero `Product` together with an
error (line 240); on success it returns the populated record.  Action
indices in source order: 0 Navigate, 1 WaitReady, 2 Name, 3 Breadcrumb,
4 Price, 5 DescriptionTitle, 6 DescriptionGeneral, 7 DescriptionItemized,
8 SenseOfSize, 9 OverallRating, 10 NumberOfReviews, 11 RecommendedRate,
12 ImageURL attribute, 13 AvailableSizes, 14 Keywords, 15 coordinated
products script, 16 reviews script, 17 size-chart Click, 18 WaitVisible,
19 size-chart script. -/
def scrapeProductPage (env : BrowserEnv) (url : GoStr) :
    Product × Option ScrapeError :=
  match runBrowserActions env 0 numScrapeActions with
  | .error i => (emptyProduct, some (.browserActionsFailed i))
  | .ok _ =>
    ({ URL := url
       ProductID := deriveProductID url
       Name := envVal env 2
       Breadcrumb := envVal env 3
       Price := envVal env 4
       DescriptionTitle := envVal env 5
       DescriptionGeneral := envVal env 6
       DescriptionItemized := envVal env 7
       SenseOfSize := envVal env 8
       OverallRating := envVal env 9
       NumberOfReviews := envVal env 10
       RecommendedRate := envVal env 11
       ImageURL := envVal env 12
       AvailableSizes := envVal env 13
       Keywords := envVal env 14
       CoordinatedProductsJSON := envVal env 15
       ReviewsJSON := envVal env 16
       SizeChartJSON := envVal env 19 }, none)

theorem runBrowserActions_error_of_failure (env : BrowserEnv) :
    ∀ n i, (∃ j, j < n ∧ env (i + j) = none) →
      ∃ k, runBrowserActions env i n = .error k ∧ env k = none ∧
        i ≤ k ∧ k < i + n ∧ ∀ j, i ≤ j → j < k → (env j).isSome = true := by
  intro n
  induction n with
  | zero =>
    intro i h
    obtain ⟨j, hj, _⟩ := h
    exact absurd hj (Nat.not_lt_zero j)
  | succ n ih =>
    intro i h
    rcases he : env i with _ | v
    · refine ⟨i, ?_, he, le_rfl, by omega, fun j h1 h2 => absurd h1 (by omega)⟩
      rw [runBrowserActions, he]
    · have h2 : ∃ j, j < n ∧ env (i + 1 + j) = none := by
        obtain ⟨j, hj, hjn⟩ := h
        cases j with
        | zero => rw [Nat.add_zero] at hjn; rw [hjn] at he; exact absurd he (by simp)
        | succ j2 =>
          exact ⟨j2, by omega, by rwa [show i + 1 + j2 = i + (j2 + 1) by omega]⟩
      obtain ⟨k, hrun, hk, hle, hlt, hmin⟩ := ih (i + 1) h2
      refine ⟨k, ?_, hk, by omega, by omega, ?_⟩
      · rw [runBrowserActions, he]
        exact hrun
      · intro j h1 h3
        rcases Nat.eq_or_lt_of_le h1 with rfl | h4
        · rw [he]; rfl
        · exact hmin j h4 h3

/-- C4: if any action of the fixed ordered extraction sequence fails —
including the initial page-ready wait (index 1) and the late size-chart
reveal click (index 17) — then `scrapeProductPage` returns an error and the
whole record is aborted: the result is the zero record plus an error for the
first failing action, every earlier action succeeded, and nothing after the
failure runs or is retried within the call, so the job yields no record. -/
theorem scrapeProductPage_aborts_on_any_step_failure (env : BrowserEnv)
    (url : GoStr) (h : ∃ j, j < numScrapeActions ∧ env j = none) :
    ∃ k, scrapeProductPage env url =
        (emptyProduct, some (.browserActionsFailed k)) ∧
      env k = none ∧ k < numScrapeActions ∧
      ∀ j, j < k → (env j).isSome = true := by
  obtain ⟨k, hrun, hk, _, hlt, hmin⟩ :=
    runBrowserActions_error_of_failure env numScrapeActions 0 (by simpa using h)
  refine ⟨k, ?_, hk, by simpa using hlt, fun j hj => hmin j (Nat.zero_le j) hj⟩
  rw [scrapeProductPage, hrun]

/-- C9: on any browser-action failure, `scrapeProductPage` returns the
zero-valued `Product` together with the error: every field of the returned
record is empty, including the `ProductID` that was already derived from the
URL before navigation began — no partial record is produced on error. -/
theorem scrapeProductPage_zero_record_on_error (env : BrowserEnv)
    (url : GoStr) (h : ∃ j, j < numScrapeActions ∧ env j = none) :
    (scrapeProductPage env url).1 = emptyProduct ∧
    (scrapeProductPage env url).1.ProductID = [] ∧
    ((scrapeProductPage env url).2).isSome = true := by
  obtain ⟨k, hrun, _, _, _, _⟩ :=
    runBrowserActions_error_of_failure env numScrapeActions 0 (by simpa using h)
  rw [scrapeProductPage, hrun]
  exact ⟨rfl, rfl, rfl⟩

/-- A session oracle whose page-ready wait (action index 1) fails while all
other actions succeed. -/
def demoFailEnv : BrowserEnv := fun i => if i = 1 then none else some ['v']

/-- A concrete product detail URL used by the scrape witnesses. -/
def demoJobURL : GoStr := "https://shop.example/products/42".data

/-- Witness for C4: with the failing page-ready wait of `demoFailEnv`, the
scrape returns the zero record and the error names action 1, with action 0
having succeeded. -/
theorem scrapeProductPage_aborts_on_any_step_failure_witness :
    (∃ j, j < numScrapeActions ∧ demoFailEnv j = none) ∧
    ∃ k, scrapeProductPage demoFailEnv demoJobURL =
        (emptyProduct, some (.browserActionsFailed k)) ∧
      demoFailEnv k = none ∧ k < numScrapeActions ∧
      ∀ j, j < k → (demoFailEnv j).isSome = true :=
  ⟨⟨1, by decide, rfl⟩,
    scrapeProductPage_aborts_on_any_step_failure demoFailEnv demoJobURL
      ⟨1, by decide, rfl⟩⟩

/-- Witness for C9: with the failing page-ready wait of `demoFailEnv`, the
returned record is the zero record with empty `ProductID` and an error. -/
theorem scrapeProductPage_zero_record_on_error_witness :
    (∃ j, j < numScrapeActions ∧ demoFailEnv j = none) ∧
    ((scrapeProductPage demoFailEnv demoJobURL).1 = emptyProduct ∧
    (scrapeProductPage demoFailEnv demoJobURL).1.ProductID = [] ∧
    ((scrapeProductPage demoFailEnv demoJobURL).2).isSome = true) :=
  ⟨⟨1, by decide, rfl⟩,
    scrapeProductPage_zero_record_on_error demoFailEnv demoJobURL
      ⟨1, by decide, rfl⟩⟩

/-- Embeds the worker loop (`src/unnamed/part_000` lines 133-148): the worker
drains its share of the jobs channel in order; when `scrapeProductPage`
returns an error the worker logs it and continues with the next job; on
success it sends the product to the results channel.  `scrape` abstracts
`scrapeProductPage` applied to the worker-owned browser session. -/
def workerRun (scrape : GoStr → Product × Option ScrapeError) :
    List GoStr → List Product
  | [] => []
  | url :: rest =>
    match scrape url with
    | (_, some _) => workerRun scrape rest
    | (p, none) => p :: workerRun scrape rest

/-- C5: a worker that fails a job records the failure and proceeds: the
failed job contributes no record, is not retried, does not terminate the
worker loop, and the records of every other job before and after it are
exactly what they would have been without it. -/
theorem worker_skips_failed_job_and_continues
    (scrape : GoStr → Product × Option ScrapeError) (u : GoStr)
    (e : ScrapeError) (h : (scrape u).2 = some e) (xs ys : List GoStr) :
    workerRun scrape (xs ++ u :: ys) =
      workerRun scrape xs ++ workerRun scrape ys := by
  induction xs with
  | nil =>
    rcases hsu : scrape u with ⟨p, oe⟩
    rw [hsu] at h
    simp only at h
    subst h
    simp [workerRun, hsu]
  | cons a xs2 ih =>
    rcases hsa : scrape a with ⟨q, oq⟩
    rcases oq with _ | e2 <;> simp [workerRun, hsa, ih]

/-- A session oracle in which every browser action succeeds. -/
def demoOkEnv : BrowserEnv := fun _ => some ['v']

/-- A URL whose scrape fails in the C5 witness scenario. -/
def demoBadURL : GoStr := "https://shop.example/products/bad".data

/-- A scrape function for the worker/pool witnesses: it fails on
`demoBadURL` and otherwise behaves as `scrapeProductPage` under an
all-successful session. -/
def demoScrape (u : GoStr) : Product × Option ScrapeError :=
  if u = demoBadURL then (emptyProduct, some (.browserActionsFailed 1))
  else scrapeProductPage demoOkEnv u

/-- Witness for C5: in a three-job queue whose middle job fails, the worker
produces exactly the records of the first and third jobs. -/
theorem worker_skips_failed_job_and_continues_witness :
    (demoScrape demoBadURL).2 = some (.browserActionsFailed 1) ∧
    workerRun demoScrape
        (["https://shop.example/products/1".data] ++ demoBadURL ::
          ["https://shop.example/products/2".data]) =
      workerRun demoScrape ["https://shop.example/products/1".data] ++
        workerRun demoScrape ["https://shop.example/products/2".data] :=
  ⟨by decide,
    worker_skips_failed_job_and_continues demoScrape demoBadURL
      (.browserActionsFailed 1) (by decide)
      ["https://shop.example/products/1".data]
      ["https://shop.example/products/2".data]⟩

/-- The `productTarget` constant (`src/unnamed/part_000` line 75). -/
def productTarget : Nat := 250

/-- Embeds the enqueue loop of `Start` (`src/unnamed/part_000` lines
112-118): discovered links are sent to the jobs channel in order, stopping
as soon as `productTarget` jobs have been enqueued, and the channel is then
closed. -/
def enqueueJobs (productLinks : List GoStr) : List GoStr :=
  productLinks.take productTarget

theorem workerRun_append (scrape : GoStr → Product × Option ScrapeError)
    (xs ys : List GoStr) :
    workerRun scrape (xs ++ ys) = workerRun scrape xs ++ workerRun scrape ys := by
  induction xs with
  | nil => simp [workerRun]
  | cons a xs2 ih =>
    rcases hsa : scrape a with ⟨q, oq⟩
    rcases oq with _ | e <;> simp [workerRun, hsa, ih]

theorem flatten_map_workerRun (scrape : GoStr → Product × Option ScrapeError)
    (assignment : List (List GoStr)) :
    (assignment.map (workerRun scrape)).flatten = workerRun scrape assignment.flatten := by
  induction assignment with
  | nil => simp [workerRun]
  | cons a rest ih => simp [workerRun_append, ih]

theorem workerRun_eq_filterMap (scrape : GoStr → Product × Option ScrapeError)
    (l : List GoStr) :
    workerRun scrape l = l.filterMap (fun u =>
      match scrape u with
      | (p, none) => some p
      | (_, some _) => none) := by
  induction l with
  | nil => simp [workerRun]
  | cons a rest ih =>
    rcases hsa : scrape a with ⟨q, oq⟩
    rcases oq with _ | e <;> simp [workerRun, hsa, ih]

theorem workerRun_length_le (scrape : GoStr → Product × Option ScrapeError)
    (l : List GoStr) : (workerRun scrape l).length ≤ l.length := by
  induction l with
  | nil => simp [workerRun]
  | cons a rest ih =>
    rcases hsa : scrape a with ⟨q, oq⟩
    rcases oq with _ | e <;> simp [workerRun, hsa] <;> omega

theorem workerRun_length_lt_iff (scrape : GoStr → Product × Option ScrapeError)
    (l : List GoStr) :
    (workerRun scrape l).length < l.length ↔
      ∃ u ∈ l, ((scrape u).2).isSome = true := by
  induction l with
  | nil => simp [workerRun]
  | cons a rest ih =>
    rcases hsa : scrape a with ⟨q, oq⟩
    rcases oq with _ | e
    · have hle := workerRun_length_le scrape rest
      simp only [workerRun, hsa, List.length_cons, List.mem_cons]
      constructor
      · intro hlt
        obtain ⟨u, hu, h2⟩ := ih.mp (by omega)
        exact ⟨u, Or.inr hu, h2⟩
      · rintro ⟨u, rfl | hu, h2⟩
        · rw [hsa] at h2; simp at h2
        · have := ih.mpr ⟨u, hu, h2⟩
          omega
    · have hle := workerRun_length_le scrape rest
      simp only [workerRun, hsa, List.length_cons]
      constructor
      · intro _
        exact ⟨a, List.mem_cons_self a rest, by rw [hsa]; rfl⟩
      · intro _
        omega

theorem mem_workerRun (scrape : GoStr → Product × Option ScrapeError)
    (l : List GoStr) (p : Product) (h : p ∈ workerRun scrape l) :
    ∃ u ∈ l, scrape u = (p, none) := by
  induction l with
  | nil => simp [workerRun] at h
  | cons a rest ih =>
    rcases hsa : scrape a with ⟨q, oq⟩
    rcases oq with _ | e
    · rw [workerRun, hsa] at h
      rcases List.mem_cons.mp h with rfl | h2
      · exact ⟨a, List.mem_cons_self a rest, hsa⟩
      · obtain ⟨u, hu, h3⟩ := ih h2
        exact ⟨u, List.mem_cons_of_mem a hu, h3⟩
    · rw [workerRun, hsa] at h
      obtain ⟨u, hu, h3⟩ := ih h
      exact ⟨u, List.mem_cons_of_mem a hu, h3⟩

theorem workerRun_nodup (scrape : GoStr → Product × Option ScrapeError)
    (hurl : ∀ u p, scrape u = (p, none) → p.URL = u) (l : List GoStr)
    (hl : l.Nodup) : (workerRun scrape l).Nodup := by
  induction l with
  | nil => simp [workerRun]
  | cons a rest ih =>
    have hna : a ∉ rest := (List.nodup_cons.mp hl).1
    have hrest := ih (List.nodup_cons.mp hl).2
    rcases hsa : scrape a with ⟨q, oq⟩
    rcases oq with _ | e
    · rw [workerRun, hsa]
      refine List.Nodup.cons ?_ hrest
      intro hmem
      obtain ⟨u, hu, h3⟩ := mem_workerRun scrape rest q hmem
      have h4 : q.URL = u := hurl u q h3
      have h5 : q.URL = a := hurl a q hsa
      rw [h5] at h4
      exact hna (h4 ▸ hu)
    · rw [workerRun, hsa]
      exact hrest

/-- A discovered URL list of 251 distinct URLs, one more than the
`productTarget` cap. -/
def manyLinks : List GoStr := (List.range 251).map (fun n => Nat.toDigits 10 n)

/-- Counterexample to C1 as stated: for a discovered URL list of size
N = 251 the pool enqueues only 250 jobs — the enqueue loop breaks at the
`productTarget` cap of 250 (`src/unnamed/part_000` line 113) — so it does
not process exactly N jobs. -/
theorem pool_enqueue_cap_counterexample :
    manyLinks.length = 251 ∧ (enqueueJobs manyLinks).length = 250 ∧
    (enqueueJobs manyLinks).length ≠ manyLinks.length := by
  have h1 : manyLinks.length = 251 := by simp [manyLinks]
  have h2 : (enqueueJobs manyLinks).length = 250 := by
    rw [enqueueJobs, List.length_take, h1]
    rfl
  exact ⟨h1, h2, by rw [h1, h2]; decide⟩

/-- C1 (amended): for every discovered URL list of size N and every worker
count and schedule — modelled as a partition `assignment` of the enqueued
jobs among the workers, and any drain order `collected` of the workers'
outputs — the pool enqueues and processes exactly min(N, 250) jobs, collects
at most that many records, strictly fewer exactly when some processed job
fails, and the collected records contain no duplicate. -/
theorem pool_processes_enqueued_jobs_no_duplicates
    (scrape : GoStr → Product × Option ScrapeError)
    (links : List GoStr) (assignment : List (List GoStr))
    (collected : List Product)
    (hnodup : links.Nodup)
    (hurl : ∀ u p, scrape u = (p, none) → p.URL = u)
    (hpart : assignment.flatten.Perm (enqueueJobs links))
    (hcol : collected.Perm (assignment.map (workerRun scrape)).flatten) :
    (assignment.map List.length).sum = min productTarget links.length ∧
    collected.length ≤ min productTarget links.length ∧
    (collected.length < min productTarget links.length ↔
      ∃ u ∈ enqueueJobs links, ((scrape u).2).isSome = true) ∧
    collected.Nodup := by
  have hlenq : (enqueueJobs links).length = min productTarget links.length := by
    rw [enqueueJobs, List.length_take]
  have henqnd : (enqueueJobs links).Nodup :=
    hnodup.sublist (List.take_sublist productTarget links)
  rw [flatten_map_workerRun] at hcol
  have hwp : (workerRun scrape assignment.flatten).Perm
      (workerRun scrape (enqueueJobs links)) := by
    rw [workerRun_eq_filterMap, workerRun_eq_filterMap]
    exact hpart.filterMap _
  have hperm : collected.Perm (workerRun scrape (enqueueJobs links)) :=
    hcol.trans hwp
  have hclen : collected.length = (workerRun scrape (enqueueJobs links)).length :=
    hperm.length_eq
  refine ⟨?_, ?_, ?_, ?_⟩
  · rw [← List.length_flatten, hpart.length_eq, hlenq]
  · rw [hclen, ← hlenq]
    exact workerRun_length_le scrape (enqueueJobs links)
  · rw [hclen, ← hlenq]
    exact workerRun_length_lt_iff scrape (enqueueJobs links)
  · exact hperm.nodup_iff.mpr
      (workerRun_nodup scrape hurl (enqueueJobs links) henqnd)

theorem scrapeProductPage_ok_url (env : BrowserEnv) (url : GoStr) (p : Product)
    (h : scrapeProductPage env url = (p, none)) : p.URL = url := by
  rw [scrapeProductPage] at h
  cases hr : runBrowserActions env 0 numScrapeActions with
  | error k => rw [hr] at h; simp at h
  | ok u2 =>
    rw [hr] at h
    simp only [Prod.mk.injEq] at h
    rw [← h.1]

theorem demoScrape_url_ok : ∀ u p, demoScrape u = (p, none) → p.URL = u := by
  intro u p h
  rw [demoScrape] at h
  by_cases hu : u = demoBadURL
  · rw [if_pos hu] at h
    simp at h
  · rw [if_neg hu] at h
    exact scrapeProductPage_ok_url demoOkEnv u p h

/-- The discovered URL list of the C1 witness scenario: three distinct URLs,
the middle of which fails to scrape. -/
def demoLinks : List GoStr :=
  ["https://shop.example/products/1".data, demoBadURL,
    "https://shop.example/products/2".data]

/-- A schedule for two workers in the C1 witness scenario. -/
def demoAssignment : List (List GoStr) :=
  [["https://shop.example/products/1".data,
    "https://shop.example/products/2".data], [demoBadURL]]

/-- The records drained from the results channel in the C1 witness
scenario. -/
def demoCollected : List Product :=
  (demoAssignment.map (workerRun demoScrape)).flatten

/-- Witness for the amended C1 at a 3-job run over two workers with one
failing job: 3 jobs processed, 2 records collected (strictly fewer because
one job fails), no duplicates. -/
theorem pool_processes_enqueued_jobs_no_duplicates_witness :
    (demoAssignment.map List.length).sum = min productTarget demoLinks.length ∧
    demoCollected.length ≤ min productTarget demoLinks.length ∧
    (demoCollected.length < min productTarget demoLinks.length ↔
      ∃ u ∈ enqueueJobs demoLinks, ((demoScrape u).2).isSome = true) ∧
    demoCollected.Nodup :=
  pool_processes_enqueued_jobs_no_duplicates demoScrape demoLinks
    demoAssignment demoCollected (by decide) demoScrape_url_ok (by decide)
    (List.Perm.refl _)

/-- State of the synchronization skeleton of `Start`
(`src/unnamed/part_000` lines 105-127) for `W` workers: which workers have
signalled completion on the wait group (the deferred `wg.Done` at worker
return), whether `wg.Wait()` has returned in the main goroutine, and whether
`close(results)` has run. -/
structure PoolState (W : Nat) where
  done : Fin W → Bool
  waitReturned : Bool
  resultsClosed : Bool

/-- The initial pool state: no worker finished, `wg.Wait` not returned,
results channel open. -/
def initPoolState (W : Nat) : PoolState W :=
  { done := fun _ => false, waitReturned := false, resultsClosed := false }

/-- Observable synchronization events of the pool: a worker sends a record
to the results channel, a worker returns (running its deferred `wg.Done`),
`wg.Wait()` returns in the main goroutine, and the main goroutine closes the
results channel. -/
inductive PoolEvent (W : Nat) where
  | send (w : Fin W)
  | finish (w : Fin W)
  | waitReturn
  | closeResults
  deriving DecidableEq

/-- Effect of one synchronization event on the pool state. -/
def poolApply {W : Nat} (s : PoolState W) : PoolEvent W → PoolState W
  | .send _ => s
  | .finish w => { s with done := fun w2 => if w2 = w then true else s.done w2 }
  | .waitReturn => { s with waitReturned := true }
  | .closeResults => { s with resultsClosed := true }

/-- Enabledness of a synchronization event: a worker sends only while it has
not returned; a worker finishes once; `wg.Wait` returns only when every
worker has called `wg.Done`; the results channel is closed by the main
goroutine only after `wg.Wait` returned (line 120 precedes line 121). -/
def poolEnabled {W : Nat} (s : PoolState W) : PoolEvent W → Prop
  | .send w => s.done w = false
  | .finish w => s.done w = false
  | .waitReturn => (∀ w, s.done w = true) ∧ s.waitReturned = false
  | .closeResults => s.waitReturned = true ∧ s.resultsClosed = false

/-- A run of the pool synchronization: a sequence of enabled events stepping
the state forward. -/
inductive PoolTrace {W : Nat} : PoolState W → List (PoolEvent W) → PoolState W → Prop where
  | nil (s : PoolState W) : PoolTrace s [] s
  | cons {s s3 : PoolState W} {es : List (PoolEvent W)} (e : PoolEvent W)
      (henb : poolEnabled s e) (htr : PoolTrace (poolApply s e) es s3) :
      PoolTrace s (e :: es) s3

theorem poolApply_done_mono {W : Nat} (s : PoolState W) (e : PoolEvent W)
    (w : Fin W) (h : s.done w = true) : (poolApply s e).done w = true := by
  cases e with
  | send w2 => simpa [poolApply] using h
  | finish w2 => by_cases hw : w = w2 <;> simp [poolApply, hw, h]
  | waitReturn => simpa [poolApply] using h
  | closeResults => simpa [poolApply] using h

theorem poolApply_wait_inv {W : Nat} (s : PoolState W) (e : PoolEvent W)
    (henb : poolEnabled s e)
    (hinv : s.waitReturned = true → ∀ w, s.done w = true) :
    (poolApply s e).waitReturned = true → ∀ w, (poolApply s e).done w = true := by
  cases e with
  | send w2 =>
    simp only [poolApply]
    exact hinv
  | finish w2 =>
    simp only [poolApply]
    intro hw w
    by_cases hww : w = w2
    · simp [hww]
    · simp only [if_neg hww]
      exact hinv hw w
  | waitReturn =>
    simp only [poolApply]
    intro _ w
    exact henb.1 w
  | closeResults =>
    simp only [poolApply]
    exact hinv

theorem PoolTrace.done_mono {W : Nat} {s s2 : PoolState W}
    {es : List (PoolEvent W)} (htr : PoolTrace s es s2) (w : Fin W)
    (h : s.done w = true) : s2.done w = true := by
  induction htr with
  | nil s3 => exact h
  | cons e henb htr2 ih => exact ih (poolApply_done_mono _ e w h)

theorem PoolTrace.wait_implies_all_done {W : Nat} {s s2 : PoolState W}
    {es : List (PoolEvent W)} (htr : PoolTrace s es s2)
    (hinv : s.waitReturned = true → ∀ w, s.done w = true) :
    s2.waitReturned = true → ∀ w, s2.done w = true := by
  induction htr with
  | nil s3 => exact hinv
  | cons e henb htr2 ih => exact ih (poolApply_wait_inv _ e henb hinv)

theorem PoolTrace.finish_mem_of_done {W : Nat} {s s2 : PoolState W}
    {es : List (PoolEvent W)} (htr : PoolTrace s es s2) (w : Fin W)
    (h1 : s.done w = false) (h2 : s2.done w = true) :
    PoolEvent.finish w ∈ es := by
  induction htr with
  | nil s3 => rw [h1] at h2; exact absurd h2 (by simp)
  | cons e henb htr2 ih =>
    cases e with
    | send w2 =>
      exact List.mem_cons_of_mem _ (ih (by simpa [poolApply] using h1) h2)
    | finish w2 =>
      by_cases hww : w = w2
      · subst hww
        exact List.mem_cons_self _ _
      · refine List.mem_cons_of_mem _ (ih ?_ h2)
        simpa [poolApply, hww] using h1
    | waitReturn =>
      exact List.mem_cons_of_mem _ (ih (by simpa [poolApply] using h1) h2)
    | closeResults =>
      exact List.mem_cons_of_mem _ (ih (by simpa [poolApply] using h1) h2)

theorem PoolTrace.no_send_of_done {W : Nat} {s s2 : PoolState W}
    {es : List (PoolEvent W)} (htr : PoolTrace s es s2) (w : Fin W)
    (h : s.done w = true) : PoolEvent.send w ∉ es := by
  induction htr with
  | nil s3 => simp
  | cons e henb htr2 ih =>
    intro hmem
    rcases List.mem_cons.mp hmem with he | hmem2
    · rcases he.symm with rfl
      have hb := henb
      simp only [poolEnabled] at hb
      rw [hb] at h
      simp at h
    · exact ih (poolApply_done_mono _ e w h) hmem2

theorem PoolTrace.append_split {W : Nat} {s s3 : PoolState W}
    {es1 es2 : List (PoolEvent W)} (htr : PoolTrace s (es1 ++ es2) s3) :
    ∃ s2, PoolTrace s es1 s2 ∧ PoolTrace s2 es2 s3 := by
  induction es1 generalizing s with
  | nil => exact ⟨s, PoolTrace.nil s, htr⟩
  | cons e es ih =>
    cases htr with
    | cons _ henb htr2 =>
      obtain ⟨s4, hA, hB⟩ := ih htr2
      exact ⟨s4, PoolTrace.cons e henb hA, hB⟩

/-- C6: in every run of the pool synchronization from the initial state, the
results channel is closed only after every worker has finished: whenever the
run contains a `closeResults` event, the `finish` event of every worker
precedes it, and no worker sends a record after the close. -/
theorem results_closed_only_after_all_workers {W : Nat}
    (es1 es2 : List (PoolEvent W)) (s : PoolState W)
    (htr : PoolTrace (initPoolState W) (es1 ++ PoolEvent.closeResults :: es2) s) :
    (∀ w, PoolEvent.finish w ∈ es1) ∧ (∀ w, PoolEvent.send w ∉ es2) := by
  obtain ⟨smid, htr1, htr2⟩ := htr.append_split
  cases htr2 with
  | cons _ henb htr3 =>
    have hwait : smid.waitReturned = true := henb.1
    have halldone : ∀ w, smid.done w = true :=
      htr1.wait_implies_all_done
        (fun h => absurd h (by simp [initPoolState])) hwait
    constructor
    · intro w
      exact htr1.finish_mem_of_done w (by simp [initPoolState]) (halldone w)
    · intro w
      exact htr3.no_send_of_done w
        (poolApply_done_mono smid .closeResults w (halldone w))

/-- The final state of the C6 witness run for two workers. -/
def demoFinalPool : PoolState 2 :=
  poolApply (poolApply (poolApply (poolApply (initPoolState 2)
    (.finish 0)) (.finish 1)) .waitReturn) .closeResults

theorem demoPoolTrace : PoolTrace (initPoolState 2)
    ([PoolEvent.finish 0, PoolEvent.finish 1, PoolEvent.waitReturn] ++
      PoolEvent.closeResults :: []) demoFinalPool :=
  PoolTrace.cons (PoolEvent.finish 0) rfl
    (PoolTrace.cons (PoolEvent.finish 1) rfl
      (PoolTrace.cons PoolEvent.waitReturn ⟨by decide, rfl⟩
        (PoolTrace.cons PoolEvent.closeResults ⟨rfl, rfl⟩
          (PoolTrace.nil demoFinalPool))))

/-- Witness for C6: in a concrete two-worker run that closes the results
channel, both workers' finish events precede the close and no send event
follows it. -/
theorem results_closed_only_after_all_workers_witness :
    (∀ w : Fin 2, PoolEvent.finish w ∈
      [PoolEvent.finish 0, PoolEvent.finish 1, PoolEvent.waitReturn]) ∧
    (∀ w : Fin 2, PoolEvent.send w ∉ ([] : List (PoolEvent 2))) :=
  results_closed_only_after_all_workers
    [PoolEvent.finish 0, PoolEvent.finish 1, PoolEvent.waitReturn] []
    demoFinalPool demoPoolTrace

/-- One intercepted network exchange of the remote renderer capture
(`XHRResponse`, `src/unnamed/part_001` lines 25-28). -/
structure XHRResponse where
  url : GoStr
  body : GoStr

/-- Product pricing of the data endpoint
(`ProductPricing`, `src/unnamed/part_001` lines 55-57). -/
structure ProductPricing where
  currentPrice : Float

/-- One product entry of the data endpoint
(`ProductDetails`, `src/unnamed/part_001` lines 41-53). -/
structure ProductDetails where
  articleNumber : GoStr
  name : GoStr
  category : GoStr
  link : GoStr
  imageLink : GoStr
  subTitle : GoStr
  sizes : List GoStr
  sport : GoStr
  surface : List GoStr
  brand : GoStr
  pricing : ProductPricing

/-- One breadcrumb entry (`Breadcrumb`, `src/unnamed/part_001`
lines 35-39). -/
structure Breadcrumb where
  text : GoStr
  link : GoStr
  kind : GoStr

/-- The parsed payload of a data-endpoint body: the recommendations plus
breadcrumbs struct of `src/unnamed/part_001` lines 253-256. -/
structure RecsPayload where
  recommendations : List ProductDetails
  breadcrumbs : List Breadcrumb

/-- Whether `pre` is a prefix of `s`; models Go `strings.HasPrefix(s, pre)`
with the prefix as first argument. -/
def goHasPrefixChars : GoStr → GoStr → Bool
  | [], _ => true
  | _ :: _, [] => false
  | a :: pre2, b :: s2 => a = b && goHasPrefixChars pre2 s2

/-- Helper for `goContains`: whether `pat` occurs in the given string at any
position. -/
def goContainsImpl (pat : GoStr) : GoStr → Bool
  | [] => goHasPrefixChars pat []
  | c :: s2 => goHasPrefixChars pat (c :: s2) || goContainsImpl pat s2

/-- Model of Go `strings.Contains(s, pat)`. -/
def goContains (s pat : GoStr) : Bool := goContainsImpl pat s

/-- The data-endpoint URL pattern (`src/unnamed/part_001` line 252). -/
def productDataPattern : GoStr := "recs/api/products".data

/-- Embeds the scanning loop of `getProductDataFromFile`
(`src/unnamed/part_001` lines 251-268): iterate over the intercepted
exchanges in order; for an entry whose URL contains the data-endpoint
pattern, attempt to parse its body (`parse` abstracts `json.Unmarshal` into
the recommendations struct) and return the first successful parse; if no
matching entry parses, return an error (text abbreviated from the source
message). -/
def getProductDataFromFile (parse : GoStr → Option RecsPayload) :
    List XHRResponse → Except GoStr RecsPayload
  | [] => .error "no product data found in the XHR bodies".data
  | x :: xs =>
    if goContains x.url productDataPattern then
      match parse x.body with
      | some payload => .ok payload
      | none => getProductDataFromFile parse xs
    else getProductDataFromFile parse xs

/-- C7: the capture consumer performs a content-addressed lookup: whatever
the position of the first entry whose URL matches the data-endpoint pattern
and whose body parses, its payload is returned (first conjunct, with an
arbitrary non-matching prefix and arbitrary suffix); and when no entry both
matches and parses, an error is returned (second conjunct). -/
theorem getProductData_content_addressed (parse : GoStr → Option RecsPayload)
    (payload : RecsPayload) :
    (∀ xs e ys, (∀ x ∈ xs, goContains x.url productDataPattern = false ∨
        (parse x.body).isNone = true) →
      goContains e.url productDataPattern = true →
      parse e.body = some payload →
      getProductDataFromFile parse (xs ++ e :: ys) = .ok payload) ∧
    (∀ xs, (∀ x ∈ xs, goContains x.url productDataPattern = false ∨
        (parse x.body).isNone = true) →
      getProductDataFromFile parse xs =
        .error "no product data found in the XHR bodies".data) := by
  constructor
  · intro xs e ys hxs hm hp
    induction xs with
    | nil =>
      rw [List.nil_append]
      simp [getProductDataFromFile, hm, hp]
    | cons a xs2 ih =>
      have ha := hxs a (List.mem_cons_self a xs2)
      have ihx := ih (fun x hx => hxs x (List.mem_cons_of_mem a hx))
      rcases ha with hf | hn
      · rw [List.cons_append]
        simpa [getProductDataFromFile, hf] using ihx
      · rcases hpa : parse a.body with _ | q
        · rw [List.cons_append]
          by_cases hca : goContains a.url productDataPattern = true
          · simpa [getProductDataFromFile, hca, hpa] using ihx
          · simpa [getProductDataFromFile, hca] using ihx
        · rw [hpa] at hn
          simp at hn
  · intro xs hxs
    induction xs with
    | nil => rfl
    | cons a xs2 ih =>
      have ha := hxs a (List.mem_cons_self a xs2)
      have ihx := ih (fun x hx => hxs x (List.mem_cons_of_mem a hx))
      rcases ha with hf | hn
      · simpa [getProductDataFromFile, hf] using ihx
      · rcases hpa : parse a.body with _ | q
        · by_cases hca : goContains a.url productDataPattern = true
          · simpa [getProductDataFromFile, hca, hpa] using ihx
          · simpa [getProductDataFromFile, hca] using ihx
        · rw [hpa] at hn
          simp at hn

/-- The parsed payload of the C7 witness. -/
def demoPayload : RecsPayload := { recommendations := [], breadcrumbs := [] }

/-- The parse oracle of the C7 witness: parsing succeeds exactly on the body
text of the matching exchange. -/
def demoParse (b : GoStr) : Option RecsPayload :=
  if b = "recsbody".data then some demoPayload else none

/-- A non-matching intercepted exchange. -/
def demoXHRMiss : XHRResponse :=
  { url := "https://shop.adidas.jp/api/other".data, body := "irrelevant".data }

/-- The matching data-endpoint exchange. -/
def demoXHRHit : XHRResponse :=
  { url := "https://shop.adidas.jp/f/v1/recs/api/products".data,
    body := "recsbody".data }

/-- Witness for C7: with a non-matching entry before it, the matching entry's
payload is found at position 2; and a capture with no matching entry yields
the error. -/
theorem getProductData_content_addressed_witness :
    getProductDataFromFile demoParse ([demoXHRMiss] ++ demoXHRHit :: []) =
      .ok demoPayload ∧
    getProductDataFromFile demoParse [demoXHRMiss] =
      .error "no product data found in the XHR bodies".data :=
  ⟨(getProductData_content_addressed demoParse demoPayload).1
      [demoXHRMiss] demoXHRHit [] (by decide) (by decide) rfl,
    (getProductData_content_addressed demoParse demoPayload).2
      [demoXHRMiss] (by decide)⟩

/-- The CSV header row of `writeCSV` (`src/unnamed/part_000` lines
263-269). -/
def csvHeaders : List GoStr :=
  ["URL".data, "ProductID".data, "Name".data, "Price".data, "ImageURL".data,
    "Breadcrumb".data, "DescriptionGeneral".data, "DescriptionTitle".data,
    "DescriptionItemized".data, "AvailableSizes".data, "SenseOfSize".data,
    "Keywords".data, "SizeChartJSON".data, "ReviewsJSON".data,
    "OverallRating".data, "NumberOfReviews".data, "RecommendedRate".data,
    "CoordinatedProductsJSON".data]

/-- Embeds the data-row construction of `writeCSV`
(`src/unnamed/part_000` lines 274-281): one row per product, fields in the
fixed header order. -/
def productToRow (p : Product) : List GoStr :=
  [p.URL, p.ProductID, p.Name, p.Price, p.ImageURL, p.Breadcrumb,
    p.DescriptionGeneral, p.DescriptionTitle, p.DescriptionItemized,
    p.AvailableSizes, p.SenseOfSize, p.Keywords, p.SizeChartJSON,
    p.ReviewsJSON, p.OverallRating, p.NumberOfReviews, p.RecommendedRate,
    p.CoordinatedProductsJSON]

/-- Modelled from the spec: re-parsing the known columns of an output row.
The repository contains no CSV reader, so the reader is taken from the
spec's round-trip property: each field is read back from the column that
the fixed header order of `writeCSV` assigns to it. -/
def rowToProduct (row : List GoStr) : Product :=
  { URL := (row[0]?).getD []
    ProductID := (row[1]?).getD []
    Name := (row[2]?).getD []
    Price := (row[3]?).getD []
    ImageURL := (row[4]?).getD []
    Breadcrumb := (row[5]?).getD []
    DescriptionGeneral := (row[6]?).getD []
    DescriptionTitle := (row[7]?).getD []
    DescriptionItemized := (row[8]?).getD []
    AvailableSizes := (row[9]?).getD []
    SenseOfSize := (row[10]?).getD []
    Keywords := (row[11]?).getD []
    SizeChartJSON := (row[12]?).getD []
    ReviewsJSON := (row[13]?).getD []
    OverallRating := (row[14]?).getD []
    NumberOfReviews := (row[15]?).getD []
    RecommendedRate := (row[16]?).getD []
    CoordinatedProductsJSON := (row[17]?).getD [] }

/-- C8: serializing a `ProductRecord` as its output CSV row and re-parsing
the row's known columns recovers every scalar field exactly; the size-chart,
reviews and coordinated-products blobs are carried as plain row fields and
round-trip as identical opaque text.  The row has exactly the header's 18
columns. -/
theorem product_row_roundtrip (p : Product) :
    rowToProduct (productToRow p) = p ∧
    (productToRow p).length = csvHeaders.length := by
  cases p
  exact ⟨rfl, rfl⟩

/-- Model of Go `strings.Join(xs, sep)`. -/
def goJoin (sep : GoStr) (xs : List GoStr) : GoStr := List.intercalate sep xs

/-- The empty-string default of `ProcessJSONAndWriteToCSV`: a field that is
the empty string is replaced by `N/A`. -/
def orNA (s : GoStr) : GoStr := if s = [] then "N/A".data else s

/-- The CSV header row of `ProcessJSONAndWriteToCSV`
(`src/unnamed/part_001` line 134). -/
def csvHeaderAPI : List GoStr :=
  ["ID".data, "URL".data, "ProductName".data, "Category".data, "Price".data,
    "ImageURL".data, "AvailableSizes".data, "SizeDetails".data,
    "Description".data, "Keywords".data, "Breadcrumbs".data]

/-- Embeds the per-product data-row construction of
`ProcessJSONAndWriteToCSV` (`src/unnamed/part_001` lines 150-218):
empty-string defaults, URL prefixing, price formatting (`fmtPrice`
abstracts `fmt.Sprintf` with two decimals), sizes joining and keyword
assembly; the row passes `availableSizes` twice — once as the
AvailableSizes column and once as the SizeDetails column (lines 213-214). -/
def productCSVRow (fmtPrice : Float → GoStr) (breadcrumbsString : GoStr)
    (product : ProductDetails) : List GoStr :=
  let id := orNA product.articleNumber
  let fullURL := if goHasPrefixChars "http".data product.link then product.link
    else "https://www.adidas.jp".data ++ product.link
  let productName := orNA product.name
  let category := orNA product.category
  let price := fmtPrice product.pricing.currentPrice
  let imageURL := orNA product.imageLink
  let availableSizes := orNA (goJoin ", ".data product.sizes)
  let description := orNA product.subTitle
  let keywords := (if product.sport ≠ [] then [product.sport] else []) ++
    (if product.surface ≠ [] then product.surface else []) ++
    (if product.brand ≠ [] then [product.brand] else []) ++
    (if product.category ≠ [] then [product.category] else [])
  let keywordsString := orNA (goJoin ", ".data keywords)
  [id, fullURL, productName, category, price, imageURL, availableSizes,
    availableSizes, description, keywordsString, breadcrumbsString]

/-- C10: in every data row written by the remote-API CSV path, the
SizeDetails column (index 7 under the header) is identical to the
AvailableSizes column (index 6): both receive the comma-joined sizes string,
or `N/A` when that join is empty. -/
theorem sizeDetails_column_eq_availableSizes (fmtPrice : Float → GoStr)
    (bc : GoStr) (product : ProductDetails) :
    csvHeaderAPI[6]? = some "AvailableSizes".data ∧
    csvHeaderAPI[7]? = some "SizeDetails".data ∧
    (productCSVRow fmtPrice bc product)[6]? =
      (productCSVRow fmtPrice bc product)[7]? ∧
    (productCSVRow fmtPrice bc product)[6]? =
      some (if goJoin ", ".data product.sizes = [] then "N/A".data
        else goJoin ", ".data product.sizes) := by
  refine ⟨rfl, rfl, ?_, ?_⟩
  · simp [productCSVRow]
  · simp [productCSVRow, orNA]
